import Mathlib

/-!
Verification of the git-worktree-runner repository against its specification.

The development shallowly embeds the Go sources:
- internal/config resolver (Resolver.All merge of multi-valued keys),
- internal/lock (Acquire over the flock library),
- internal/copy (CopyFiles pattern validation and match filtering),
- the gtr/wr Manager (ResolveTarget, List, Copy, Remove, Clean, CreateWorktree)
  together with an event-trace instrumentation for the lock discipline.

External collaborators (the git binary, the filesystem, the doublestar glob
library) are modelled as oracle functions supplied in a state record, so every
theorem quantifies over all of their behaviours; where a concrete behaviour of
an external library decides a claim, the modelling choice is recorded in the
doc comment of the corresponding definition.
-/

/-! ## String helpers

String scanning is done on character lists so that all definitions reduce by
kernel computation. On POSIX, filepath.ToSlash is the identity, which is how
these models read slash-separated paths.
-/

/-- Character-list version of substring containment: does the pattern occur
contiguously inside the list? Mirrors strings.Contains on slash paths. -/
def charsHasSub (pat : List Char) : List Char → Bool
  | [] => pat.isEmpty
  | c :: rest => pat.isPrefixOf (c :: rest) || charsHasSub pat rest

/-- Go strings.HasPrefix on Lean strings, computed on character lists. -/
def strStarts (s pre : String) : Bool := pre.data.isPrefixOf s.data

/-- Go strings.HasSuffix on Lean strings, computed on character lists. -/
def strEnds (s suf : String) : Bool := suf.data.reverse.isPrefixOf s.data.reverse

/-- Go strings.Contains on Lean strings, computed on character lists. -/
def strHasSub (s pat : String) : Bool := charsHasSub pat.data s.data

/-- Go strings.TrimSpace: drop leading and trailing whitespace characters. -/
def trimSpace (s : String) : String :=
  ⟨((s.data.dropWhile Char.isWhitespace).reverse.dropWhile Char.isWhitespace).reverse⟩

/-- Go strings.TrimPrefix for one occurrence of a dot-slash, as used in
CopyFiles on glob matches. -/
def trimDotSlash (s : String) : String :=
  if strStarts s "./" then ⟨s.data.drop 2⟩ else s

/-- Model of filepath.Join for one absolute directory and one relative child
name, in the slash-separated normal form the repository works in (the
directory is absolute, canonicalized, and has no trailing slash). -/
def joinPath (dir name : String) : String := dir ++ "/" ++ name

/-! ## Configuration resolver (internal/config, src/unnamed/part_005)

Resolver.All queries git config per scope and splits each stdout by newline;
the per-scope value lists are the inputs of this model. The closure
appendUnique of Resolver.All keeps a seen-set alongside the output list; since
every value added to the output is also added to the seen-set and vice versa,
membership in the output list models the seen-set exactly.
-/

/-- Step of the order-preserving dedup: append a value unless present. -/
def addUnique (acc : List String) (v : String) : List String :=
  if v ∈ acc then acc else acc ++ [v]

/-- The appendUnique closure of Resolver.All: fold values onto the output,
skipping empty strings and values already seen. -/
def appendUniqueAll (out : List String) (values : List String) : List String :=
  values.foldl (fun acc v => if v = "" then acc else addUnique acc v) out

/-- Resolver.All from src/unnamed/part_005: merge the multi-valued key lists
of the four scopes in precedence order local, .gtrconfig file, global, system.
The file scope is consulted only when a file key was supplied. -/
def ResolverAll (localVals fileVals globalVals systemVals : List String)
    (hasFileKey : Bool) : List String :=
  let out := appendUniqueAll [] localVals
  let out := if hasFileKey then appendUniqueAll out fileVals else out
  let out := appendUniqueAll out globalVals
  appendUniqueAll out systemVals

/-- First-occurrence deduplication of a list, keeping first-seen order. -/
def dedupFirst (xs : List String) : List String := xs.foldl addUnique []

/-- Statement of the spec sentence for the multi-value merge, written from the
words of the spec alone: concatenate the scope lists in precedence order, drop
empty lines, and retain the first occurrence of each value. -/
def specMergeAll (vals : List String) : List String :=
  dedupFirst (vals.filter (· ≠ ""))

theorem appendUniqueAll_eq_foldl (out : List String) (vals : List String) :
    appendUniqueAll out vals = (vals.filter (· ≠ "")).foldl addUnique out := by
  induction vals generalizing out with
  | nil => rfl
  | cons v rest ih =>
      by_cases hv : v = ""
      · simp [appendUniqueAll, List.filter, hv, ih] at *
        simpa [appendUniqueAll, hv] using ih out
      · simp only [appendUniqueAll, List.foldl, List.filter] at *
        simp only [hv, if_neg hv, decide_not, decide_eq_true_eq] at *
        simpa [appendUniqueAll, hv] using ih (addUnique out v)

theorem addUnique_nodup (acc : List String) (v : String) (h : acc.Nodup) :
    (addUnique acc v).Nodup := by
  unfold addUnique
  by_cases hv : v ∈ acc
  · simpa [hv]
  · simp only [hv, if_false]
    simpa [List.nodup_append] using ⟨h, hv⟩

theorem foldl_addUnique_nodup (vals : List String) (acc : List String)
    (h : acc.Nodup) : (vals.foldl addUnique acc).Nodup := by
  induction vals generalizing acc with
  | nil => simpa
  | cons v rest ih => exact ih (addUnique acc v) (addUnique_nodup acc v h)

/-- C6: Resolver.All returns the per-scope value lists concatenated in the
precedence order local, file scope, global, system, with empty lines dropped
and only the first occurrence of each value retained; consequently the result
has no duplicates and preserves first-seen order. The first-occurrence,
order-preserving behaviour is captured by equality with specMergeAll, which is
written from the words of the spec; the no-duplicates part is Nodup. -/
theorem resolverAll_spec_merge (l f g s : List String) :
    ResolverAll l f g s true = specMergeAll (l ++ f ++ g ++ s) ∧
      (ResolverAll l f g s true).Nodup ∧
      ResolverAll l f g s false = specMergeAll (l ++ g ++ s) ∧
      (ResolverAll l f g s false).Nodup := by
  refine ⟨?_, ?_, ?_, ?_⟩
  · simp [ResolverAll, specMergeAll, dedupFirst, appendUniqueAll_eq_foldl,
      List.filter_append, List.foldl_append]
  · simp only [ResolverAll, appendUniqueAll_eq_foldl, if_true]
    exact foldl_addUnique_nodup _ _ (foldl_addUnique_nodup _ _
      (foldl_addUnique_nodup _ _ (foldl_addUnique_nodup _ _ List.nodup_nil)))
  · simp [ResolverAll, specMergeAll, dedupFirst, appendUniqueAll_eq_foldl,
      List.filter_append, List.foldl_append]
  · simp only [ResolverAll, appendUniqueAll_eq_foldl, if_false]
    exact foldl_addUnique_nodup _ _ (foldl_addUnique_nodup _ _
      (foldl_addUnique_nodup _ _ List.nodup_nil))

/-! ## Advisory file lock (internal/lock, src/unnamed/part_002)

Acquire wraps the incoming context with WithTimeout and calls
flock.TryLockContext with a 100 ms retry interval. The flock library is an
external dependency; tryCtx in gofrs/flock returns (true, nil) once the lock
is taken and (false, ctx.Err()) as soon as the derived context is done, so a
(false, nil) outcome never occurs. The derived context reports
context.Canceled when the caller cancelled first and context.DeadlineExceeded
when the timeout elapsed first. LockScenario enumerates these three outcomes
of one Acquire call.
-/

/-- Outcome shape of one bounded-wait lock attempt, as seen by Acquire. -/
inductive LockScenario
  | acquiredInTime
  | outerCanceledFirst
  | timedOut
  deriving DecidableEq, Repr

/-- Error values that flow through the lock package, with fmt.Errorf wrapping
modelled explicitly so that errors.Is can be stated. -/
inductive GoErr
  | acquireTimeout
  | canceled
  | deadlineExceeded
  | wrapped (msg : String) (cause : GoErr)
  deriving DecidableEq, Repr

/-- Model of errors.Is: the error itself or anything in its unwrap chain. -/
def GoErr.isErr : GoErr → GoErr → Bool
  | e, target =>
    if e = target then true
    else match e with
      | .wrapped _ cause => cause.isErr target
      | _ => false

/-- Modelled from gofrs/flock: TryLockContext returns (true, nil) when the
lock is acquired before the derived context is done, and (false, ctx.Err())
when the derived context is done first; the error is context.Canceled if the
caller cancelled, context.DeadlineExceeded if the WithTimeout deadline fired. -/
def tryLockContext : LockScenario → Bool × Option GoErr
  | .acquiredInTime => (true, none)
  | .outerCanceledFirst => (false, some .canceled)
  | .timedOut => (false, some .deadlineExceeded)

/-- Acquire from src/unnamed/part_002: wrap the flock error when TryLockContext
reports one, return ErrAcquireTimeout when TryLockContext reports not-acquired
without an error, and succeed otherwise. -/
def Acquire (path : String) (s : LockScenario) : Except GoErr Unit :=
  match tryLockContext s with
  | (_, some e) => .error (.wrapped ("acquire lock " ++ path) e)
  | (true, none) => .ok ()
  | (false, none) => .error .acquireTimeout

/-- C5: at the failing input — the lock is neither acquired nor the caller
context cancelled within the timeout — Acquire does not fail with the
acquire_timeout error: flock.TryLockContext reports the derived context's
DeadlineExceeded, which Acquire wraps and returns, so ErrAcquireTimeout is
unreachable. This contradicts the claim, the spec, and the doc comment on
ErrAcquireTimeout in src/unnamed/part_002. -/
theorem acquire_timeout_never_acquireTimeout :
    Acquire "/repo/.git/wr.lock" .timedOut =
      .error (.wrapped "acquire lock /repo/.git/wr.lock" .deadlineExceeded) ∧
    (GoErr.wrapped "acquire lock /repo/.git/wr.lock" .deadlineExceeded).isErr
        .acquireTimeout = false ∧
    (∀ s : LockScenario, Acquire "/repo/.git/wr.lock" s ≠ .error .acquireTimeout) := by
  refine ⟨rfl, by decide, ?_⟩
  intro s
  cases s <;> simp [Acquire, tryLockContext]

/-! ## Glob copier (internal/copy, src/internal/copy/copy_test.go second part)

CopyFiles validates include patterns, globs each one against the source root
with the doublestar library, filters matches through the exclude patterns and
copies (or, under dry-run, merely reports) each regular-file match. The
doublestar library and the filesystem are external, so they enter the model as
oracles: glob gives the match list of a pattern, with none modelling the error
return of doublestar.Glob on a malformed pattern (ErrBadPattern), which the
source propagates out of the loop; isFile tells whether stat succeeds and
reports a non-directory; dsMatch is the boolean outcome of doublestar.Match
(its error outcome is folded to false exactly as the source does with ok and
err in excluded); copyOk is the success of the copyFile call for a match,
which the source also propagates on failure. copyOk is keyed by the match's
source-relative path: within one call the destination path is a function of
that path and the options, so nothing is lost. The model returns the
CopiedFiles list; a match enters it only after its copy succeeded (or under
dry-run, where copyFile is never called), as in the source. -/
structure CopyFS where
  glob : String → Option (List String)
  isFile : String → Bool
  dsMatch : String → String → Bool
  copyOk : String → Bool

/-- Options from internal/copy. -/
structure CopyOptions where
  preservePaths : Bool
  dryRun : Bool
  deriving DecidableEq, Repr

/-- Copy errors of the modelled paths of CopyFiles: the two validation errors,
the propagated doublestar.Glob error of a malformed pattern, and a propagated
copyFile I/O error on a match. -/
inductive CopyErr
  | noPatterns
  | unsafePattern (p : String)
  | globErr (p : String)
  | ioErr (rel : String)
  deriving DecidableEq, Repr

/-- isSafePattern from internal/copy: reject absolute patterns and dot-dot
path traversal at any position (leading, inner segment, trailing, or alone). -/
def isSafePattern (pattern : String) : Bool :=
  if strStarts pattern "/" then false
  else
    !(strStarts pattern "../" || pattern = ".." || strHasSub pattern "/../" ||
      strEnds pattern "/..")

/-- normalizePatterns from internal/copy: trim each pattern, drop empties. -/
def normalizePatterns (patterns : List String) : List String :=
  (patterns.map trimSpace).filter (· ≠ "")

/-- excluded from internal/copy: a path is excluded when some safe exclude
pattern matches it under doublestar semantics. -/
def excludedBy (fs : CopyFS) (path : String) (excludePatterns : List String) : Bool :=
  excludePatterns.any (fun p => isSafePattern p && fs.dsMatch p path)

/-- appendUnique from internal/copy: append unless already present. -/
def appendUnique (dst : List String) (value : String) : List String :=
  if value ∈ dst then dst else dst ++ [value]

/-- Inner match loop of CopyFiles: trim a leading dot-slash, skip empty
relative paths, excluded paths, and non-regular-file matches; under dry-run
accumulate the rest, otherwise copy each and accumulate it on success, failing
the whole call on a copy error. -/
def processMatches (fs : CopyFS) (excludes : List String) (opts : CopyOptions) :
    List String → List String → Except CopyErr (List String)
  | copied, [] => .ok copied
  | copied, m :: ms =>
    let rel := trimDotSlash m
    if rel = "" then processMatches fs excludes opts copied ms
    else if excludedBy fs rel excludes then processMatches fs excludes opts copied ms
    else if !fs.isFile m then processMatches fs excludes opts copied ms
    else if opts.dryRun then processMatches fs excludes opts (appendUnique copied rel) ms
    else if fs.copyOk rel then processMatches fs excludes opts (appendUnique copied rel) ms
    else .error (.ioErr rel)

/-- Outer pattern loop of CopyFiles: trim each include pattern, skip empty
ones, fail on the first unsafe one, fail on a glob error, and otherwise fold
the pattern's glob matches into the accumulator, propagating copy errors. -/
def copyFilesLoop (fs : CopyFS) (excludes : List String) (opts : CopyOptions) :
    List String → List String → Except CopyErr (List String)
  | copied, [] => .ok copied
  | copied, raw :: rest =>
    let p := trimSpace raw
    if p = "" then copyFilesLoop fs excludes opts copied rest
    else if !isSafePattern p then .error (.unsafePattern p)
    else
      match fs.glob p with
      | none => .error (.globErr p)
      | some ms =>
        match processMatches fs excludes opts copied ms with
        | .error e => .error e
        | .ok copied2 => copyFilesLoop fs excludes opts copied2 rest

/-- CopyFiles from internal/copy, returning the CopiedFiles list. -/
def CopyFiles (fs : CopyFS) (includePatterns excludePatterns : List String)
    (opts : CopyOptions) : Except CopyErr (List String) :=
  if includePatterns.isEmpty then .error .noPatterns
  else copyFilesLoop fs (normalizePatterns excludePatterns) opts [] includePatterns

theorem subset_appendUnique (l : List String) (v : String) : l ⊆ appendUnique l v := by
  unfold appendUnique
  split
  · exact fun x hx => hx
  · exact List.subset_append_left l [v]

theorem mem_appendUnique_self (l : List String) (v : String) : v ∈ appendUnique l v := by
  unfold appendUnique
  split
  · assumption
  · simp

theorem appendUnique_subset {l l' : List String} (v : String) (h : l ⊆ l') :
    appendUnique l v ⊆ appendUnique l' v := by
  intro x hx
  unfold appendUnique at hx
  split at hx
  · exact subset_appendUnique l' v (h hx)
  · rcases List.mem_append.mp hx with hx | hx
    · exact subset_appendUnique l' v (h hx)
    · simp only [List.mem_singleton] at hx
      subst hx
      exact mem_appendUnique_self l' x

theorem excludedBy_nil (fs : CopyFS) (path : String) : excludedBy fs path [] = false := rfl

theorem processMatches_sub (fs : CopyFS) (exc : List String) (opts : CopyOptions)
    (ms : List String) :
    ∀ copied copied' c c', copied ⊆ copied' →
      processMatches fs exc opts copied ms = .ok c →
      processMatches fs [] opts copied' ms = .ok c' →
      c ⊆ c' := by
  induction ms with
  | nil =>
      intro copied copied' c c' h h1 h2
      simp only [processMatches] at h1 h2
      cases h1; cases h2
      exact h
  | cons m ms ih =>
      intro copied copied' c c' h h1 h2
      simp only [processMatches] at h1 h2
      rw [excludedBy_nil] at h2
      simp only [Bool.false_eq_true, if_false] at h2
      by_cases hrel : trimDotSlash m = ""
      · rw [if_pos hrel] at h1 h2
        exact ih copied copied' c c' h h1 h2
      · rw [if_neg hrel] at h1 h2
        by_cases hf : fs.isFile m = true
        · simp only [hf, Bool.not_true, Bool.false_eq_true, if_false] at h1 h2
          by_cases hexc : excludedBy fs (trimDotSlash m) exc = true
          · rw [if_pos hexc] at h1
            by_cases hd : opts.dryRun = true
            · rw [if_pos hd] at h2
              exact ih copied (appendUnique copied' (trimDotSlash m)) c c'
                (h.trans (subset_appendUnique copied' (trimDotSlash m))) h1 h2
            · rw [if_neg hd] at h2
              by_cases hco : fs.copyOk (trimDotSlash m) = true
              · rw [if_pos hco] at h2
                exact ih copied (appendUnique copied' (trimDotSlash m)) c c'
                  (h.trans (subset_appendUnique copied' (trimDotSlash m))) h1 h2
              · rw [if_neg hco] at h2
                cases h2
          · rw [if_neg hexc] at h1
            by_cases hd : opts.dryRun = true
            · rw [if_pos hd] at h1 h2
              exact ih _ _ c c' (appendUnique_subset (trimDotSlash m) h) h1 h2
            · rw [if_neg hd] at h1 h2
              by_cases hco : fs.copyOk (trimDotSlash m) = true
              · rw [if_pos hco] at h1 h2
                exact ih _ _ c c' (appendUnique_subset (trimDotSlash m) h) h1 h2
              · rw [if_neg hco] at h1
                cases h1
        · simp only [Bool.not_eq_true] at hf
          simp only [hf, Bool.not_false, if_true] at h1 h2
          by_cases hexc : excludedBy fs (trimDotSlash m) exc = true
          · rw [if_pos hexc] at h1
            exact ih copied copied' c c' h h1 h2
          · rw [if_neg hexc] at h1
            exact ih copied copied' c c' h h1 h2

theorem copyFilesLoop_sub (fs : CopyFS) (excN : List String) (opts : CopyOptions)
    (inc : List String) :
    ∀ copied copied' l l', copied ⊆ copied' →
      copyFilesLoop fs excN opts copied inc = .ok l →
      copyFilesLoop fs [] opts copied' inc = .ok l' →
      l ⊆ l' := by
  induction inc with
  | nil =>
      intro copied copied' l l' h h1 h2
      simp only [copyFilesLoop] at h1 h2
      cases h1; cases h2
      exact h
  | cons raw rest ih =>
      intro copied copied' l l' h h1 h2
      simp only [copyFilesLoop] at h1 h2
      by_cases hp : trimSpace raw = ""
      · rw [if_pos hp] at h1 h2
        exact ih copied copied' l l' h h1 h2
      · rw [if_neg hp] at h1 h2
        by_cases hs : isSafePattern (trimSpace raw) = true
        · simp only [hs, Bool.not_true, Bool.false_eq_true, if_false] at h1 h2
          cases hg : fs.glob (trimSpace raw) with
          | none =>
              simp only [hg] at h1
              cases h1
          | some ms =>
              simp only [hg] at h1 h2
              cases hpm : processMatches fs excN opts copied ms with
              | error e =>
                  simp only [hpm] at h1
                  cases h1
              | ok c2 =>
                  simp only [hpm] at h1
                  cases hpm2 : processMatches fs [] opts copied' ms with
                  | error e =>
                      simp only [hpm2] at h2
                      cases h2
                  | ok c2' =>
                      simp only [hpm2] at h2
                      exact ih c2 c2' l l'
                        (processMatches_sub fs excN opts ms copied copied' c2 c2' h hpm hpm2)
                        h1 h2
        · simp only [Bool.not_eq_true] at hs
          simp only [hs, Bool.not_false, if_true] at h1
          cases h1

/-- C7: with any exclude list, the CopiedFiles reported by CopyFiles form a
subset of those reported with an empty exclude list: exclude patterns only
shrink the match set. Both runs are required to succeed; the subset holds for
every glob, stat, matcher and copy oracle and every option combination. -/
theorem copyFiles_excludes_shrink (fs : CopyFS) (inc exc : List String)
    (opts : CopyOptions) (l l' : List String)
    (h1 : CopyFiles fs inc exc opts = .ok l)
    (h2 : CopyFiles fs inc [] opts = .ok l') : l ⊆ l' := by
  unfold CopyFiles at h1 h2
  by_cases hinc : inc.isEmpty = true
  · rw [if_pos hinc] at h1
    cases h1
  · rw [if_neg hinc] at h1 h2
    have hnil : normalizePatterns ([] : List String) = [] := rfl
    rw [hnil] at h2
    exact copyFilesLoop_sub fs (normalizePatterns exc) opts inc [] [] l l'
      (fun x hx => hx) h1 h2

/-- Concrete filesystem oracle used by the copier witnesses: two env files,
both regular files, a doublestar matcher that matches the second, globbing
that never errors and copying that never fails. -/
def copyWitnessFS : CopyFS :=
  { glob := fun p => if p = "*.env" then some ["a.env", "b.env"] else some []
    isFile := fun _ => true
    dsMatch := fun p s => (p == "b*") && strStarts s "b"
    copyOk := fun _ => true }

theorem copyFiles_excludes_shrink_witness :
    CopyFiles copyWitnessFS ["*.env"] ["b*"] ⟨true, false⟩ = .ok ["a.env"] ∧
    CopyFiles copyWitnessFS ["*.env"] [] ⟨true, false⟩ = .ok ["a.env", "b.env"] ∧
    ["a.env"] ⊆ ["a.env", "b.env"] :=
  ⟨by rfl, by rfl,
    copyFiles_excludes_shrink copyWitnessFS ["*.env"] ["b*"] ⟨true, false⟩ _ _
      (by rfl) (by rfl)⟩

theorem isSafePattern_empty : isSafePattern "" = true := by decide

theorem copyFilesLoop_fails (fs : CopyFS) (excN : List String) (opts : CopyOptions)
    (inc : List String) :
    ∀ copied, ∀ p ∈ inc, isSafePattern (trimSpace p) = false →
      ∃ e, copyFilesLoop fs excN opts copied inc = .error e := by
  induction inc with
  | nil => intro _ p hp; cases hp
  | cons raw rest ih =>
      intro copied p hp hviol
      simp only [copyFilesLoop]
      by_cases hp1 : trimSpace raw = ""
      · rw [if_pos hp1]
        rcases List.mem_cons.mp hp with rfl | hp2
        · rw [hp1, isSafePattern_empty] at hviol
          cases hviol
        · exact ih copied p hp2 hviol
      · rw [if_neg hp1]
        by_cases hs : isSafePattern (trimSpace raw) = true
        · simp only [hs, Bool.not_true, Bool.false_eq_true, if_false]
          cases hg : fs.glob (trimSpace raw) with
          | none =>
              simp only [hg]
              exact ⟨.globErr (trimSpace raw), rfl⟩
          | some ms =>
              simp only [hg]
              cases hpm : processMatches fs excN opts copied ms with
              | error e =>
                  simp only [hpm]
                  exact ⟨e, rfl⟩
              | ok c2 =>
                  simp only [hpm]
                  rcases List.mem_cons.mp hp with rfl | hp2
                  · rw [hviol] at hs
                    cases hs
                  · exact ih c2 p hp2 hviol
        · simp only [Bool.not_eq_true] at hs
          simp only [hs, Bool.not_false, if_true]
          exact ⟨.unsafePattern (trimSpace raw), rfl⟩

theorem processMatches_ok (fs : CopyFS) (exc : List String) (opts : CopyOptions)
    (hc : opts.dryRun = true ∨ ∀ r, fs.copyOk r = true) (ms : List String) :
    ∀ copied, ∃ c, processMatches fs exc opts copied ms = .ok c := by
  induction ms with
  | nil => intro copied; exact ⟨copied, rfl⟩
  | cons m ms ih =>
      intro copied
      simp only [processMatches]
      by_cases h1 : trimDotSlash m = ""
      · rw [if_pos h1]
        exact ih copied
      · rw [if_neg h1]
        by_cases h2 : excludedBy fs (trimDotSlash m) exc = true
        · rw [if_pos h2]
          exact ih copied
        · rw [if_neg h2]
          by_cases h3 : fs.isFile m = true
          · simp only [h3, Bool.not_true, Bool.false_eq_true, if_false]
            rcases hc with hd | hco
            · rw [if_pos hd]
              exact ih _
            · by_cases hd : opts.dryRun = true
              · rw [if_pos hd]
                exact ih _
              · rw [if_neg hd, if_pos (hco (trimDotSlash m))]
                exact ih _
          · simp only [Bool.not_eq_true] at h3
            simp only [h3, Bool.not_false, if_true]
            exact ih copied

theorem copyFilesLoop_rejects (fs : CopyFS) (excN : List String) (opts : CopyOptions)
    (hg : ∀ q, fs.glob q ≠ none)
    (hc : opts.dryRun = true ∨ ∀ r, fs.copyOk r = true) (inc : List String) :
    ∀ copied, ∀ p ∈ inc, isSafePattern (trimSpace p) = false →
      ∃ q, copyFilesLoop fs excN opts copied inc = .error (.unsafePattern q) ∧
        isSafePattern q = false := by
  induction inc with
  | nil => intro _ p hp; cases hp
  | cons raw rest ih =>
      intro copied p hp hviol
      simp only [copyFilesLoop]
      by_cases hp1 : trimSpace raw = ""
      · rw [if_pos hp1]
        rcases List.mem_cons.mp hp with rfl | hp2
        · rw [hp1, isSafePattern_empty] at hviol
          cases hviol
        · exact ih copied p hp2 hviol
      · rw [if_neg hp1]
        by_cases hs : isSafePattern (trimSpace raw) = true
        · simp only [hs, Bool.not_true, Bool.false_eq_true, if_false]
          cases hglob : fs.glob (trimSpace raw) with
          | none => exact absurd hglob (hg (trimSpace raw))
          | some ms =>
              simp only [hglob]
              obtain ⟨c2, hpm⟩ := processMatches_ok fs excN opts hc ms copied
              simp only [hpm]
              rcases List.mem_cons.mp hp with rfl | hp2
              · rw [hviol] at hs
                cases hs
              · exact ih c2 p hp2 hviol
        · simp only [Bool.not_eq_true] at hs
          simp only [hs, Bool.not_false, if_true]
          exact ⟨trimSpace raw, rfl, hs⟩

/-- C8 (amended): CopyFiles fails with no_patterns whenever the include list
is empty; when some include pattern is unsafe in the sense of isSafePattern —
absolute, or containing a dot-dot traversal segment at any position — the call
always fails, but with an unsafe_pattern error only when no earlier include
pattern fails first: since validation is interleaved with globbing and copying
per pattern, a glob error on a malformed earlier pattern or an I/O error
copying an earlier pattern's match preempts and is returned instead. When
every pattern globs without error and no copy can fail (dry-run, or an
all-succeeding copier), the failure is unsafe_pattern, reporting an unsafe
pattern. -/
theorem copyFiles_error_contract (fs : CopyFS) (inc exc : List String)
    (opts : CopyOptions) :
    (inc = [] → CopyFiles fs inc exc opts = .error .noPatterns) ∧
    (∀ p ∈ inc, isSafePattern (trimSpace p) = false →
      (∃ e, CopyFiles fs inc exc opts = .error e) ∧
      ((∀ q, fs.glob q ≠ none) →
        (opts.dryRun = true ∨ ∀ r, fs.copyOk r = true) →
        ∃ q, CopyFiles fs inc exc opts = .error (.unsafePattern q) ∧
          isSafePattern q = false)) := by
  constructor
  · intro h
    subst h
    rfl
  · intro p hp hviol
    have hne : inc.isEmpty = false := by
      cases inc
      · cases hp
      · rfl
    constructor
    · unfold CopyFiles
      simp only [hne, Bool.false_eq_true, if_false]
      exact copyFilesLoop_fails fs (normalizePatterns exc) opts inc [] p hp hviol
    · intro hg hc
      unfold CopyFiles
      simp only [hne, Bool.false_eq_true, if_false]
      exact copyFilesLoop_rejects fs (normalizePatterns exc) opts hg hc inc [] p hp hviol

/-- Concrete oracle on which doublestar.Glob rejects the malformed pattern
consisting of a lone opening bracket (an unterminated character class, the
library's ErrBadPattern) and accepts everything else. -/
def badGlobFS : CopyFS :=
  { glob := fun p => if p = "[" then none else some []
    isFile := fun _ => true
    dsMatch := fun _ _ => false
    copyOk := fun _ => true }

/-- C8 counterexample: the include list holds the traversal pattern ../x, yet
the call fails with the propagated glob error of the malformed earlier pattern
— not with unsafe_pattern — because per-pattern validation never reaches the
unsafe pattern. So the claim, which demands the unsafe_pattern error whenever
some include pattern is absolute or contains traversal, is false as stated. -/
theorem copyFiles_badPattern_counterexample :
    ("../x" ∈ (["[", "../x"] : List String) ∧
      isSafePattern (trimSpace "../x") = false) ∧
    CopyFiles badGlobFS ["[", "../x"] [] ⟨true, true⟩ = .error (.globErr "[") ∧
    ¬ ∃ q, CopyFiles badGlobFS ["[", "../x"] [] ⟨true, true⟩ =
        .error (.unsafePattern q) := by
  refine ⟨⟨by simp, by decide⟩, by rfl, ?_⟩
  rintro ⟨q, hq⟩
  have h2 : (Except.error (CopyErr.globErr "[") : Except CopyErr (List String)) =
      .error (.unsafePattern q) := by
    rw [← hq]
    rfl
  simp at h2

theorem copyFiles_error_contract_witness :
    CopyFiles copyWitnessFS [] [] ⟨true, false⟩ = .error .noPatterns ∧
    (∃ e, CopyFiles copyWitnessFS ["../x"] [] ⟨true, false⟩ = .error e) ∧
    (∃ q, CopyFiles copyWitnessFS ["../x"] [] ⟨true, false⟩ =
        .error (.unsafePattern q) ∧ isSafePattern q = false) := by
  have h2 := (copyFiles_error_contract copyWitnessFS ["../x"] [] ⟨true, false⟩).2
    "../x" (by simp) (by decide)
  refine ⟨(copyFiles_error_contract copyWitnessFS [] [] ⟨true, false⟩).1 rfl, h2.1, ?_⟩
  exact h2.2
    (by intro q2; by_cases hq : q2 = "*.env" <;> simp [copyWitnessFS, hq])
    (Or.inr (fun r => rfl))

/-- C9: a non-empty include list whose patterns all trim to the empty string
makes CopyFiles succeed with an empty CopiedFiles list: the no_patterns check
only fires on an empty list, and whitespace-only patterns are skipped before
the safety check, before globbing and before any copying, so no external call
is reached. -/
theorem copyFiles_whitespace_only (fs : CopyFS) (inc exc : List String)
    (opts : CopyOptions) (hne : inc ≠ []) (hall : ∀ p ∈ inc, trimSpace p = "") :
    CopyFiles fs inc exc opts = .ok [] := by
  have hloop : ∀ (l : List String) (copied : List String),
      (∀ p ∈ l, trimSpace p = "") →
      copyFilesLoop fs (normalizePatterns exc) opts copied l = .ok copied := by
    intro l
    induction l with
    | nil => intro copied _; rfl
    | cons raw rest ih =>
        intro copied hall2
        simp only [copyFilesLoop, hall2 raw (List.mem_cons_self raw rest), if_true]
        exact ih copied (fun p hp => hall2 p (List.mem_cons_of_mem raw hp))
  unfold CopyFiles
  have hne2 : inc.isEmpty = false := by
    cases inc
    · exact absurd rfl hne
    · rfl
  simp only [hne2, Bool.false_eq_true, if_false]
  exact hloop inc [] hall

theorem copyFiles_whitespace_only_witness :
    CopyFiles copyWitnessFS ["", "  "] ["b*"] ⟨true, false⟩ = .ok [] :=
  copyFiles_whitespace_only copyWitnessFS ["", "  "] ["b*"] ⟨true, false⟩ (by simp)
    (by
      intro p hp
      rcases List.mem_cons.mp hp with rfl | hp2
      · rfl
      · rcases List.mem_cons.mp hp2 with rfl | hp3
        · decide
        · cases hp3)

/-! ## Manager data model (src/gtr/manager.go)

ManagerState packages everything Manager.List and Manager.ResolveTarget read:
the repository context (main root, common dir), the porcelain entries produced
by worktrees.ListPorcelain, the resolved worktree paths (base dir and the
configured folder-name lead string pfx), and filesystem/git oracles — statOk for os.Stat
success, branchOf for the currentBranch callback (none models an error),
baseChildren for os.ReadDir of the base dir (none models ErrNotExist; other
ReadDir errors abort List and are outside the modelled paths).
-/

/-- WorktreeStatus from src/gtr/manager.go. -/
inductive WorktreeStatus
  | ok
  | detached
  | locked
  | prunable
  | missing
  deriving DecidableEq, Repr

/-- Target from src/gtr/manager.go. -/
structure Target where
  isMain : Bool
  path : String
  branch : String
  deriving DecidableEq, Repr

/-- ListEntry from src/gtr/manager.go. -/
structure ListEntry where
  target : Target
  status : WorktreeStatus
  deriving DecidableEq, Repr

/-- PorcelainEntry from internal/worktrees. -/
structure PorcelainEntry where
  path : String
  branch : String
  detached : Bool
  locked : Bool
  prunable : Bool
  deriving DecidableEq, Repr

/-- One os.ReadDir entry: a name and whether it is a directory. -/
structure DirEnt where
  name : String
  isDir : Bool
  deriving DecidableEq, Repr

/-- gitx.DetachedBranch, the sentinel branch name for a detached HEAD. -/
def detachedBranch : String := "(detached)"

/-- State a Manager observes during List and ResolveTarget. -/
structure ManagerState where
  mainRoot : String
  commonDir : String
  porcelain : List PorcelainEntry
  baseDir : String
  pfx : String
  baseChildren : Option (List DirEnt)
  statOk : String → Bool
  branchOf : String → Option String

/-- The byPath map of Manager.List and Manager.ResolveTarget: entries are
inserted in order, so the last porcelain entry with a given path wins. -/
def byPath (st : ManagerState) (p : String) : Option PorcelainEntry :=
  st.porcelain.foldl (fun acc e => if e.path = p then some e else acc) none

theorem foldl_byPath_path (p : String) (l : List PorcelainEntry) :
    ∀ (acc : Option PorcelainEntry) (e : PorcelainEntry),
      (∀ e0, acc = some e0 → e0.path = p) →
      l.foldl (fun acc e => if e.path = p then some e else acc) acc = some e →
      e.path = p := by
  induction l with
  | nil => intro acc e hacc h; exact hacc e h
  | cons x xs ih =>
      intro acc e hacc h
      rw [List.foldl_cons] at h
      by_cases hx : x.path = p
      · rw [if_pos hx] at h
        exact ih _ e (fun e0 he0 => by cases he0; exact hx) h
      · rw [if_neg hx] at h
        exact ih _ e (fun e0 he0 => hacc e0 he0) h

theorem byPath_some_path (st : ManagerState) (p : String) (e : PorcelainEntry)
    (h : byPath st p = some e) : e.path = p :=
  foldl_byPath_path p st.porcelain none e (by intro e0 he0; cases he0) h

/-- Base-directory sweep of Manager.List: the children of the base dir that
are directories and whose name starts with the configured folder name
component, joined back into absolute paths. -/
def sweepPaths (st : ManagerState) : List String :=
  match st.baseChildren with
  | none => []
  | some ds =>
      ((ds.filter (fun d => d.isDir && strStarts d.name st.pfx)).map
        (fun d => joinPath st.baseDir d.name))

/-- The seenPaths set of Manager.List. The Go code ranges over a map; since
every claim about List is membership-based and the final sort.Slice fixes the
order anyway, the set is modelled as the first-occurrence dedup of porcelain
paths followed by sweep paths. -/
def seenPaths (st : ManagerState) : List String :=
  dedupFirst (st.porcelain.map (fun e => e.path) ++ sweepPaths st)

/-- Per-path entry construction of Manager.List: with a metadata row the
status is locked over prunable over detached over ok; without one the status
is missing and the branch falls back from the currentBranch callback to the
detached sentinel. -/
def listEntryFor (st : ManagerState) (path : String) : ListEntry :=
  match byPath st path with
  | some e =>
      { target := { isMain := path == st.mainRoot, path := path, branch := e.branch }
        status :=
          if e.locked then .locked
          else if e.prunable then .prunable
          else if e.detached then .detached
          else .ok }
  | none =>
      { target :=
          { isMain := path == st.mainRoot
            path := path
            branch :=
              match st.branchOf path with
              | some b => if b = "" then detachedBranch else b
              | none => detachedBranch }
        status := .missing }

/-- Comparator of the sort.Slice call in Manager.List, as a total boolean
less-or-equal: main first, then branch, then path. -/
def entryLE (a b : ListEntry) : Bool :=
  if a.target.isMain ≠ b.target.isMain then a.target.isMain
  else if a.target.branch ≠ b.target.branch then a.target.branch < b.target.branch
  else a.target.path ≤ b.target.path

/-- Insertion step of the sort modelling sort.Slice. -/
def orderedInsert (a : ListEntry) : List ListEntry → List ListEntry
  | [] => [a]
  | b :: l => if entryLE a b then a :: b :: l else b :: orderedInsert a l

/-- Insertion sort modelling sort.Slice (which may reorder arbitrarily; the
comparator is total on List output because paths are unique there). -/
def sortEntries : List ListEntry → List ListEntry
  | [] => []
  | a :: l => orderedInsert a (sortEntries l)

theorem mem_orderedInsert (x a : ListEntry) (l : List ListEntry) :
    x ∈ orderedInsert a l ↔ x = a ∨ x ∈ l := by
  induction l with
  | nil => simp [orderedInsert]
  | cons b l ih =>
      simp only [orderedInsert]
      split
      · simp
      · simp only [List.mem_cons, ih]
        tauto

theorem mem_sortEntries (x : ListEntry) (l : List ListEntry) :
    x ∈ sortEntries l ↔ x ∈ l := by
  induction l with
  | nil => simp [sortEntries]
  | cons a l ih => simp [sortEntries, mem_orderedInsert, ih]

/-- Manager.List from src/gtr/manager.go: build one entry per seen path and
sort main-first, then by branch, then by path. -/
def ManagerList (st : ManagerState) : List ListEntry :=
  sortEntries ((seenPaths st).map (listEntryFor st))

theorem listEntryFor_path (st : ManagerState) (p : String) :
    (listEntryFor st p).target.path = p := by
  unfold listEntryFor
  cases byPath st p <;> rfl

/-- C1 (amended): a List entry has status missing exactly when the enumerator
has no metadata row for its path; such entries are exactly the ones
contributed by the base-directory sweep, whose directories do exist on disk. -/
theorem managerList_missing_iff_no_row (st : ManagerState) :
    ∀ e ∈ ManagerList st, e.status = .missing ↔ byPath st e.target.path = none := by
  intro e he
  rw [ManagerList, mem_sortEntries] at he
  obtain ⟨p, _, rfl⟩ := List.mem_map.mp he
  rw [listEntryFor_path]
  unfold listEntryFor
  cases h : byPath st p with
  | none => simp [h]
  | some en =>
      simp only [h]
      constructor
      · intro hs
        by_cases h1 : en.locked <;> by_cases h2 : en.prunable <;>
          by_cases h3 : en.detached <;> simp [h1, h2, h3] at hs
      · intro hnone
        cases hnone

/-- Concrete Manager state realizing TestManagerListIncludesMissingBaseDirEntries:
one metadata row for the main repository, an orphan directory inside the base
dir with no metadata row, and a currentBranch callback that fails everywhere
(the orphan is not a repository). The orphan directory exists on disk. -/
def listStateA : ManagerState :=
  { mainRoot := "/repo"
    commonDir := "/repo/.git"
    porcelain := [⟨"/repo", "main", false, false, false⟩]
    baseDir := "/b"
    pfx := ""
    baseChildren := some [⟨"orphan", true⟩]
    statOk := fun p => p == "/repo" || p == "/b" || p == "/b/orphan"
    branchOf := fun _ => none }

/-- C1 counterexample: at listStateA the claim as stated is false. The orphan
entry is reported with status missing although its directory exists on disk
(statOk is true for it), so status missing is not equivalent to the
conjunction of on-disk absence and a missing metadata row. -/
theorem managerList_missing_iff_counterexample :
    ¬ (∀ e ∈ ManagerList listStateA,
        e.status = .missing ↔
          (listStateA.statOk e.target.path = false ∧
            byPath listStateA e.target.path = none)) := by
  intro h
  have h2 := (h ⟨⟨false, "/b/orphan", detachedBranch⟩, .missing⟩ (by decide)).mp rfl
  exact absurd h2.1 (by decide)

theorem managerList_missing_iff_no_row_witness :
    (ListEntry.mk ⟨false, "/b/orphan", detachedBranch⟩ .missing).status =
      WorktreeStatus.missing :=
  (managerList_missing_iff_no_row listStateA
    ⟨⟨false, "/b/orphan", detachedBranch⟩, .missing⟩ (by decide)).mpr (by decide)

/-- C4 (amended): a List entry whose path has no metadata row — one known only
from the base-directory sweep — has status missing, and its branch is the
detached sentinel unless the currentBranch callback succeeds with a non-empty
branch for that path, in which case that branch is reported. -/
theorem managerList_sweep_only_entries (st : ManagerState) :
    ∀ e ∈ ManagerList st, byPath st e.target.path = none →
      e.status = .missing ∧
        e.target.branch =
          (match st.branchOf e.target.path with
            | some b => if b = "" then detachedBranch else b
            | none => detachedBranch) := by
  intro e he
  rw [ManagerList, mem_sortEntries] at he
  obtain ⟨p, _, rfl⟩ := List.mem_map.mp he
  rw [listEntryFor_path]
  intro hnone
  unfold listEntryFor
  cases h : byPath st p with
  | none => simp [h]
  | some en => rw [h] at hnone; cases hnone

/-- Concrete Manager state identical to listStateA except that the orphan
directory is itself a git checkout on branch main, so the currentBranch
callback succeeds there. Realizable by placing a plain clone inside the base
dir. -/
def listStateB : ManagerState :=
  { listStateA with
      branchOf := fun p => if p == "/b/orphan" then some "main" else none }

/-- C4 counterexample: at listStateB the claim as stated is false. The orphan
entry is known only from the base-directory sweep, yet its branch is reported
as main (the currentBranch fallback in Manager.List succeeded), not as the
detached sentinel. -/
theorem managerList_sweep_only_counterexample :
    ¬ (∀ e ∈ ManagerList listStateB, byPath listStateB e.target.path = none →
        e.status = .missing ∧ e.target.branch = detachedBranch) := by
  intro h
  have h2 := h ⟨⟨false, "/b/orphan", "main"⟩, .missing⟩ (by decide) (by decide)
  exact absurd h2.2 (by decide)

theorem managerList_sweep_only_entries_witness :
    (ListEntry.mk ⟨false, "/b/orphan", detachedBranch⟩ .missing).status =
        WorktreeStatus.missing ∧
      (ListEntry.mk ⟨false, "/b/orphan", detachedBranch⟩ .missing).target.branch =
        detachedBranch := by
  have h := managerList_sweep_only_entries listStateA
    ⟨⟨false, "/b/orphan", detachedBranch⟩, .missing⟩ (by decide) (by decide)
  exact ⟨h.1, h.2⟩

/-! ## Identifier resolution (Manager.ResolveTarget, src/gtr/manager.go) -/

/-- Modelled from the spec: naming.SanitizeBranchName (src/internal/naming
contains only its tests, the implementation file is not part of the corpus).
Per spec section 4.9: trim whitespace; replace each of slash, space, colon,
asterisk, question mark, double quote, less-than, greater-than and pipe with a
dash; trim leading and trailing dashes. The definition reproduces every case
of TestSanitizeBranchName. -/
def sanitizeBranchName (s : String) : String :=
  let repl := (trimSpace s).data.map (fun c =>
    if c = '/' ∨ c = ' ' ∨ c = ':' ∨ c = '*' ∨ c = '?' ∨ c = '"' ∨ c = '<' ∨
        c = '>' ∨ c = '|' then '-' else c)
  ⟨((repl.dropWhile (· = '-')).reverse.dropWhile (· = '-')).reverse⟩

/-- Errors surfaced by ResolveTarget: the ErrTargetNotFound wrap (with its
message detail) and a propagated currentBranch callback failure. -/
inductive ResolveErr
  | targetNotFound (detail : String)
  | branchLookupFailed (path : String)
  deriving DecidableEq, Repr

/-- The mainEntry computation of ResolveTarget: the metadata row at the main
root if present, else a synthetic entry from the currentBranch callback; a
callback failure propagates (modelled as none). -/
def mainEntryOf (st : ManagerState) : Option PorcelainEntry :=
  match byPath st st.mainRoot with
  | some e => some e
  | none =>
      match st.branchOf st.mainRoot with
      | some b => some ⟨st.mainRoot, b, b == detachedBranch, false, false⟩
      | none => none

/-- The candidate worktree path of ResolveTarget: base dir joined with the
folder name obtained from the configured lead string and the sanitized
identifier. -/
def candidatePath (st : ManagerState) (identifier : String) : String :=
  joinPath st.baseDir (st.pfx ++ sanitizeBranchName identifier)

/-- Manager.ResolveTarget from src/gtr/manager.go. Rules in source order: an
empty identifier fails; the literal identifier 1 resolves to the main
repository; an identifier equal to the main (non-detached) branch resolves to
the main repository; an identifier whose candidate path has a metadata row
resolves to that row; a candidate path existing on disk resolves through the
currentBranch callback (whose failure propagates); an identifier equal to a
linked worktree branch resolves to that worktree; otherwise not found. -/
def ResolveTarget (st : ManagerState) (identifier : String) : Except ResolveErr Target :=
  if identifier = "" then .error (.targetNotFound "empty identifier")
  else
    match mainEntryOf st with
    | none => .error (.branchLookupFailed st.mainRoot)
    | some mainEntry =>
      if identifier = "1" then .ok ⟨true, st.mainRoot, mainEntry.branch⟩
      else if mainEntry.branch ≠ detachedBranch ∧ identifier = mainEntry.branch then
        .ok ⟨true, st.mainRoot, mainEntry.branch⟩
      else
        match byPath st (candidatePath st identifier) with
        | some e => .ok ⟨false, e.path, e.branch⟩
        | none =>
          if st.statOk (candidatePath st identifier) then
            match st.branchOf (candidatePath st identifier) with
            | some b => .ok ⟨false, candidatePath st identifier, b⟩
            | none => .error (.branchLookupFailed (candidatePath st identifier))
          else
            match st.porcelain.find? (fun e =>
                decide (e.path ≠ st.mainRoot) && decide (e.branch = identifier)) with
            | some e => .ok ⟨false, e.path, e.branch⟩
            | none => .error (.targetNotFound identifier)

/-- C10: ResolveTarget with the empty identifier fails immediately with the
wrapped target-not-found error, before any repository state is consulted, so
it does so for every repository state. -/
theorem resolveTarget_empty_identifier (st : ManagerState) :
    ResolveTarget st "" = .error (.targetNotFound "empty identifier") := rfl

/-- Concrete Manager state with a metadata row at the path computed for the
identifier 1: the base dir holds a registered worktree in a folder literally
named 1 (branch b1), besides the main repository on branch main. -/
def listStateC : ManagerState :=
  { mainRoot := "/repo"
    commonDir := "/repo/.git"
    porcelain := [⟨"/repo", "main", false, false, false⟩,
                  ⟨"/b/1", "b1", false, false, false⟩]
    baseDir := "/b"
    pfx := ""
    baseChildren := some [⟨"1", true⟩]
    statOk := fun p => p == "/repo" || p == "/b" || p == "/b/1"
    branchOf := fun _ => none }

/-- C2 counterexample: at listStateC the claim as stated is false for the
identifier 1. The identifier is its own sanitization and a worktree exists at
the computed path (metadata row present and directory on disk), yet
ResolveTarget resolves to the main repository at a different path, because the
literal-1 rule fires first. -/
theorem resolveTarget_sanitized_counterexample :
    ¬ (sanitizeBranchName "1" = "1" →
        byPath listStateC (joinPath "/b" ("" ++ "1")) ≠ none →
        listStateC.statOk (joinPath "/b" ("" ++ "1")) = true →
        ∃ t, ResolveTarget listStateC "1" = .ok t ∧
          t.path = joinPath "/b" ("" ++ "1")) := by
  intro h
  obtain ⟨t, ht, hp⟩ := h (by decide) (by decide) (by decide)
  rw [show ResolveTarget listStateC "1" = .ok ⟨true, "/repo", "main"⟩ from rfl] at ht
  cases ht
  exact absurd hp (by decide)

/-- C2 (amended): for a non-empty identifier equal to its own sanitization
that is neither the literal 1 nor the main repository's (non-detached) branch,
if the enumerator has a metadata row at the computed path base dir slash lead
string plus identifier, ResolveTarget succeeds and returns that path. -/
theorem resolveTarget_sanitized_path (st : ManagerState) (id : String)
    (e me : PorcelainEntry)
    (hne : id ≠ "")
    (hid : id = sanitizeBranchName id)
    (hnot1 : id ≠ "1")
    (hmain : mainEntryOf st = some me)
    (hnotmain : ¬ (me.branch ≠ detachedBranch ∧ id = me.branch))
    (hrow : byPath st (joinPath st.baseDir (st.pfx ++ id)) = some e) :
    ResolveTarget st id = .ok ⟨false, joinPath st.baseDir (st.pfx ++ id), e.branch⟩ := by
  have hcand : candidatePath st id = joinPath st.baseDir (st.pfx ++ id) := by
    rw [candidatePath, ← hid]
  have hpath : e.path = joinPath st.baseDir (st.pfx ++ id) :=
    byPath_some_path st _ e hrow
  unfold ResolveTarget
  simp only [if_neg hne, hmain, if_neg hnot1, if_neg hnotmain, hcand, hrow, hpath]

/-- Concrete Manager state for the C2 witness: a registered worktree at the
sanitized folder wt1 on branch feat. -/
def listStateD : ManagerState :=
  { mainRoot := "/repo"
    commonDir := "/repo/.git"
    porcelain := [⟨"/repo", "main", false, false, false⟩,
                  ⟨"/b/wt1", "feat", false, false, false⟩]
    baseDir := "/b"
    pfx := ""
    baseChildren := some [⟨"wt1", true⟩]
    statOk := fun p => p == "/repo" || p == "/b" || p == "/b/wt1"
    branchOf := fun _ => none }

theorem resolveTarget_sanitized_path_witness :
    ResolveTarget listStateD "wt1" =
      .ok ⟨false, joinPath "/b" ("" ++ "wt1"), "feat"⟩ :=
  resolveTarget_sanitized_path listStateD "wt1"
    ⟨"/b/wt1", "feat", false, false, false⟩ ⟨"/repo", "main", false, false, false⟩
    (by decide) (by decide) (by decide) (by decide) (by decide) (by decide)

/-! ## Lock discipline (C3): event traces of the Manager operations

Each Manager operation is re-expressed as the sequence of effectful calls it
makes — lock acquisition and release, git child processes, filesystem
mutations, copier invocations, hook runs, process spawns. Read-only
sub-operations that only consult git config or the enumerator metadata are not
given events (they can never take the lock: the only lock call sites in the
sources are CreateWorktree, Remove and Clean). Oracles in GoWorld drive the
branches exactly where the sources branch on an external outcome.
-/

/-- Effectful calls made by Manager operations. -/
inductive Event
  | lockAcquire (path : String)
  | lockRelease (path : String)
  | gitRun (dir : String) (args : List String)
  | statCall (path : String)
  | mkdirAll (path : String)
  | readDirCall (path : String)
  | removeDir (path : String)
  | copyFilesInto (src dst : String)
  | copyDirsInto (src dst : String)
  | hooksRun (phase : String)
  | spawn (argv : List String)
  | guiOpen (path : String)
  deriving DecidableEq, Repr

/-- World of oracles the traced operations read: Manager state plus outcomes
of git commands, ref existence, config lookups, directory reads, lock
acquisition, removal confirmation, copier runs and adapter resolution. -/
structure GoWorld where
  st : ManagerState
  gitOk : List String → Bool
  refHas : String → Bool
  cfgAll : String → List String
  cfgDefault : String → String
  worktreeInclude : List String
  readDirAt : String → Option (List DirEnt)
  lockOk : Bool
  confirmOk : Bool
  copyOkAt : String → Bool
  adapterOk : Bool
  defaultFromRef : String

/-- RemoveWorktreeOptions (src/gtr/clean_test.go second part). -/
structure RemoveOpts where
  deleteBranch : Bool
  force : Bool
  yes : Bool
  hasConfirm : Bool
  deriving DecidableEq, Repr

/-- CreateWorktreeOptions (src/wr/worktree_create.go). -/
structure CreateOpts where
  fromRef : String
  fromCurrent : Bool
  trackMode : String
  noCopy : Bool
  noFetch : Bool
  force : Bool
  nameSuffix : String
  deriving DecidableEq, Repr

/-- CopyOptions (src/unnamed/part_009). -/
structure MCopyOpts where
  fromID : String
  all : Bool
  dryRun : Bool
  patterns : List String
  preservePaths : Bool
  deriving DecidableEq, Repr

/-- Whether ResolveTarget reaches its os.Stat call on the candidate path:
a non-empty identifier, a resolvable main entry, neither the literal-1 rule
nor the main-branch rule fired, and no metadata row at the candidate. -/
def resolveStatReached (w : GoWorld) (id : String) : Bool :=
  if id = "" then false
  else
    match mainEntryOf w.st with
    | none => false
    | some me =>
      if id = "1" then false
      else if me.branch ≠ detachedBranch ∧ id = me.branch then false
      else
        match byPath w.st (candidatePath w.st id) with
        | some _ => false
        | none => true

/-- Events of one ResolveTarget call: at most the os.Stat probe on the
candidate path (all other reads are metadata or config lookups). -/
def resolveTraceEvents (w : GoWorld) (id : String) : List Event :=
  if resolveStatReached w id then [.statCall (candidatePath w.st id)] else []

/-- Events of Manager.List: the base-directory sweep's os.ReadDir. -/
def listTrace (w : GoWorld) : List Event := [.readDirCall w.st.baseDir]

/-- Events of Manager.Run (src/wr/doctor.go third part): resolve, then spawn
the user command in the target directory. -/
def runTrace (w : GoWorld) (id : String) (argv : List String) : List Event :=
  if argv.isEmpty then []
  else
    resolveTraceEvents w id ++
      match ResolveTarget w.st id with
      | .error _ => []
      | .ok _ => [.spawn argv]

/-- Editor selection of Manager.OpenEditor: the override when non-empty, else
the configured default. -/
def editorChoice (w : GoWorld) (override : String) : String :=
  if override ≠ "" then override else w.cfgDefault "gtr.editor.default"

/-- Post-resolution events of Manager.OpenEditor: the platform GUI open when
the editor is none or empty, else an adapter spawn when resolution and the
command lookup succeed. -/
def editorTail (w : GoWorld) (t : Target) (override : String) : List Event :=
  if editorChoice w override = "none" ∨ editorChoice w override = "" then
    [.guiOpen t.path]
  else if w.adapterOk then [.spawn [editorChoice w override, t.path]] else []

/-- Events of Manager.OpenEditor (src/gtr/integrations.go): resolve, then
either the platform GUI open (editor none or empty) or an adapter spawn. -/
def editorTrace (w : GoWorld) (id override : String) : List Event :=
  resolveTraceEvents w id ++
    match ResolveTarget w.st id with
    | .error _ => []
    | .ok t => editorTail w t override

/-- AI tool selection of Manager.RunAI: the override when non-empty, else the
configured default. -/
def aiChoice (w : GoWorld) (override : String) : String :=
  if override ≠ "" then override else w.cfgDefault "gtr.ai.default"

/-- Post-resolution events of Manager.RunAI: nothing when no tool is
configured (the call fails), else an adapter spawn when resolution and the
command lookup succeed. -/
def aiTail (w : GoWorld) (override : String) (args : List String) : List Event :=
  if aiChoice w override = "none" ∨ aiChoice w override = "" then []
  else if w.adapterOk then [.spawn (aiChoice w override :: args)] else []

/-- Events of Manager.RunAI (src/gtr/integrations.go): resolve, then an
adapter spawn unless no tool is configured. -/
def aiTrace (w : GoWorld) (id override : String) (args : List String) : List Event :=
  resolveTraceEvents w id ++
    match ResolveTarget w.st id with
    | .error _ => []
    | .ok _ => aiTail w override args

/-- Hook-run events of runHooks: one event when the configured hook list for
the phase is non-empty. -/
def hooksEvents (w : GoWorld) (phase : String) : List Event :=
  if (w.cfgAll ("hook." ++ phase)).isEmpty then [] else [.hooksRun phase]

/-- Per-identifier events of Manager.Remove: resolve; skip failures and the
main repository; run git worktree remove; on success optionally confirm and
delete the branch, then run the postRemove hooks (skipped when the branch
deletion failed, exactly as the source continues on error). -/
def removeOneEvents (w : GoWorld) (opts : RemoveOpts) (id : String) : List Event :=
  resolveTraceEvents w id ++
    match ResolveTarget w.st id with
    | .error _ => []
    | .ok t =>
      if t.isMain then []
      else
        let args := ["worktree", "remove"] ++ (if opts.force then ["--force"] else []) ++ [t.path]
        .gitRun w.st.mainRoot args ::
          (if w.gitOk args then
            (if opts.deleteBranch ∧ t.branch ≠ "" ∧ t.branch ≠ detachedBranch then
              (if (if opts.yes then true else if opts.hasConfirm then w.confirmOk else true) then
                .gitRun w.st.mainRoot ["branch", "-D", t.branch] ::
                  (if w.gitOk ["branch", "-D", t.branch] then hooksEvents w "postRemove" else [])
              else hooksEvents w "postRemove")
            else hooksEvents w "postRemove")
          else [])

/-- Events of Manager.Remove (src/gtr/clean_test.go second part): nothing on
an empty identifier list; otherwise acquire the advisory lock at
common_dir/gtr.lock, process each identifier, and release (deferred, so the
release is the last event whenever the acquisition succeeded). -/
def removePostLock (w : GoWorld) (ids : List String) (opts : RemoveOpts) : List Event :=
  if w.lockOk then
    ((ids.map (removeOneEvents w opts)).flatten) ++
      [.lockRelease (joinPath w.st.commonDir "gtr.lock")]
  else []

/-- Events of Manager.Remove, split at the acquisition: nothing on an empty
identifier list; otherwise the lock acquisition followed by removePostLock. -/
def removeTrace (w : GoWorld) (ids : List String) (opts : RemoveOpts) : List Event :=
  if ids.isEmpty then []
  else .lockAcquire (joinPath w.st.commonDir "gtr.lock") :: removePostLock w ids opts

/-- Per-child events of Manager.Clean: read the child directory; on a read
error skip it; remove it when empty. -/
def cleanChildEvents (w : GoWorld) (d : DirEnt) : List Event :=
  let dirPath := joinPath w.st.baseDir d.name
  .readDirCall dirPath ::
    (match w.readDirAt dirPath with
     | none => []
     | some cs => if cs.isEmpty then [.removeDir dirPath] else [])

/-- Post-acquisition events of Manager.Clean: best-effort prune, stat of the
base dir, then the empty-child sweep. -/
def cleanBodyEvents (w : GoWorld) : List Event :=
  .gitRun w.st.mainRoot ["worktree", "prune"] ::
    .statCall w.st.baseDir ::
      (if w.st.statOk w.st.baseDir then
        .readDirCall w.st.baseDir ::
          (match w.st.baseChildren with
           | none => []
           | some ds => ((ds.filter (fun d => d.isDir)).map (cleanChildEvents w)).flatten)
       else [])

/-- Post-acquisition events of Manager.Clean. -/
def cleanPostLock (w : GoWorld) : List Event :=
  if w.lockOk then
    cleanBodyEvents w ++ [.lockRelease (joinPath w.st.commonDir "wr.lock")]
  else []

/-- Events of Manager.Clean (src/wr/doctor.go fourth part): acquire the
advisory lock at common_dir/wr.lock first, then prune and sweep, releasing
last (deferred). -/
def cleanTrace (w : GoWorld) : List Event :=
  .lockAcquire (joinPath w.st.commonDir "wr.lock") :: cleanPostLock w

/-- Worktree folder path computed by CreateWorktree: sanitized branch name,
optional dash-suffix, the configured lead string, under the base dir. -/
def createWorktreePath (w : GoWorld) (branch : String) (opts : CreateOpts) : String :=
  joinPath w.st.baseDir
    (w.st.pfx ++ (sanitizeBranchName branch ++
      (if opts.nameSuffix = "" then "" else "-" ++ opts.nameSuffix)))

/-- Track-mode validation of CreateWorktree: empty defaults to auto; the
closed set is auto, remote, local, none. -/
def trackOk (tm : String) : Bool :=
  let t := if tm = "" then "auto" else tm
  t == "auto" || t == "remote" || t == "local" || t == "none"

/-- One git worktree add attempt: run it, and continue with the given
follow-up events only when it succeeded. -/
def tryAdd (w : GoWorld) (args : List String) (after : List Event) : List Event :=
  .gitRun w.st.mainRoot args :: (if w.gitOk args then after else [])

/-- Events after a successful worktree add in CreateWorktree: seed copier
(file copy when includes configured, directory copy when include-dirs
configured, hooks skipped when the copier failed), then the postCreate hooks. -/
def afterAddEvents (w : GoWorld) (wp : String) (noCopy : Bool) : List Event :=
  if noCopy then hooksEvents w "postCreate"
  else
    let copyEvs :=
      (if (w.cfgAll "copy.include" ++ w.worktreeInclude).isEmpty then []
       else [Event.copyFilesInto w.st.mainRoot wp]) ++
      (if (w.cfgAll "copy.includeDirs").isEmpty then []
       else [Event.copyDirsInto w.st.mainRoot wp])
    copyEvs ++ (if w.copyOkAt wp then hooksEvents w "postCreate" else [])

/-- Strategy-table events of CreateWorktree: the two show-ref probes, then the
mode-specific worktree add invocations of the table in the source. -/
def strategyEvents (w : GoWorld) (branch fr : String) (forceFlag : List String)
    (wp tm : String) (after : List Event) : List Event :=
  let remoteRef := "refs/remotes/origin/" ++ branch
  let localRef := "refs/heads/" ++ branch
  let remoteExists := w.refHas remoteRef
  let localExists := w.refHas localRef
  let add := ["worktree", "add"] ++ forceFlag ++ [wp, branch]
  let addNew := ["worktree", "add"] ++ forceFlag ++ [wp, "-b", branch, fr]
  [Event.gitRun w.st.mainRoot ["show-ref", "--verify", "--quiet", remoteRef],
   Event.gitRun w.st.mainRoot ["show-ref", "--verify", "--quiet", localRef]] ++
  (if tm = "remote" then
    if !remoteExists then []
    else if localExists then tryAdd w add after
    else
      .gitRun w.st.mainRoot addNew ::
        (if w.gitOk addNew then after else tryAdd w add after)
  else if tm = "local" then
    if !localExists then [] else tryAdd w add after
  else if tm = "none" then
    tryAdd w addNew after
  else -- auto
    if remoteExists && !localExists then
      .gitRun w.st.mainRoot ["branch", "--track", branch, "origin/" ++ branch] ::
        tryAdd w add after
    else if localExists then tryAdd w add after
    else tryAdd w addNew after)

/-- Post-acquisition events of CreateWorktree: optional fetch, the ref probes
and strategy table, seed copy and hooks, and the deferred release. -/
def createPostLock (w : GoWorld) (branch : String) (opts : CreateOpts) : List Event :=
  if w.lockOk then
    ((if opts.noFetch then [] else [Event.gitRun w.st.mainRoot ["fetch", "origin"]]) ++
      strategyEvents w branch
        (if opts.fromRef ≠ "" then opts.fromRef else w.defaultFromRef)
        (if opts.force then ["--force"] else [])
        (createWorktreePath w branch opts)
        (if opts.trackMode = "" then "auto" else opts.trackMode)
        (afterAddEvents w (createWorktreePath w branch opts) opts.noCopy)) ++
      [.lockRelease (joinPath w.st.commonDir "wr.lock")]
  else []

/-- Events of Manager.CreateWorktree (src/wr/worktree_create.go): after the
pure validations, stat the destination (stop if present), create the base
directory, acquire the advisory lock at common_dir/wr.lock, optionally fetch,
probe refs and run the strategy table, then seed-copy and hooks; the deferred
release is last whenever acquisition succeeded. The from-ref resolution
(current branch or configured default branch) is a read-only lookup supplied
by the defaultFromRef oracle. -/
def createTrace (w : GoWorld) (branch : String) (opts : CreateOpts) : List Event :=
  if branch = "" then []
  else if opts.force ∧ opts.nameSuffix = "" then []
  else if !trackOk opts.trackMode then []
  else
    .statCall (createWorktreePath w branch opts) ::
      (if w.st.statOk (createWorktreePath w branch opts) then []
       else
        .mkdirAll w.st.baseDir ::
          .lockAcquire (joinPath w.st.commonDir "wr.lock") ::
            createPostLock w branch opts)

/-- Destination-resolution loop of Manager.Copy for explicit targets: emit
each resolve's events, stop at the first resolution failure (which aborts the
whole operation before any copying). -/
def resolveTargetsEvents (w : GoWorld) : List String → List Event × Option (List Target)
  | [] => ([], some [])
  | id :: rest =>
    let ev := resolveTraceEvents w id
    match ResolveTarget w.st id with
    | .error _ => (ev, none)
    | .ok t =>
      let (evs, res) := resolveTargetsEvents w rest
      (ev ++ evs, match res with | none => none | some ts => some (t :: ts))

/-- Per-destination copy loop of Manager.Copy: one copier invocation per
destination, stopping after a failing one. -/
def copyLoopEvents (w : GoWorld) (srcPath : String) : List Target → List Event
  | [] => []
  | d :: ds =>
    .copyFilesInto srcPath d.path ::
      (if w.copyOkAt d.path then copyLoopEvents w srcPath ds else [])

/-- Events of Manager.Copy (src/unnamed/part_009): resolve the source
(default identifier 1), build the include list (explicit patterns, or config
merged with the worktreeinclude file; empty aborts), choose destinations
(every healthy non-main non-source entry under all, else the resolved
explicit targets minus the source), then copy into each destination. No lock
is ever taken. -/
def copyIncludes (w : GoWorld) (opts : MCopyOpts) : List String :=
  if !opts.patterns.isEmpty then opts.patterns
  else w.cfgAll "gtr.copy.include" ++ w.worktreeInclude

/-- Destination set of Manager.Copy under the all flag: every non-main entry
whose status is neither missing nor prunable, excluding the source. -/
def copyAllDestinations (w : GoWorld) (src : Target) : List Target :=
  ((ManagerList w.st).filter (fun e =>
      !e.target.isMain && !(e.status == WorktreeStatus.missing) &&
        !(e.status == WorktreeStatus.prunable) &&
        !(e.target.path == src.path))).map (fun e => e.target)

/-- Post-source-resolution events of Manager.Copy. -/
def copyDispatch (w : GoWorld) (src : Target) (targets : List String)
    (opts : MCopyOpts) : List Event :=
  if (copyIncludes w opts).isEmpty then []
  else if opts.all then
    listTrace w ++ copyLoopEvents w src.path (copyAllDestinations w src)
  else if targets.isEmpty then []
  else
    (resolveTargetsEvents w targets).1 ++
      match (resolveTargetsEvents w targets).2 with
      | none => []
      | some ts => copyLoopEvents w src.path (ts.filter (fun t => !(t.path == src.path)))

def copyTrace (w : GoWorld) (targets : List String) (opts : MCopyOpts) : List Event :=
  let sourceID := if opts.fromID = "" then "1" else opts.fromID
  resolveTraceEvents w sourceID ++
    match ResolveTarget w.st sourceID with
    | .error _ => []
    | .ok src => copyDispatch w src targets opts

/-- Absence of lock acquisition in a trace. -/
def noLock (tr : List Event) : Prop := ∀ p, Event.lockAcquire p ∉ tr

theorem noLock_nil : noLock [] := by intro p hp; cases hp

theorem noLock_append {a b : List Event} (ha : noLock a) (hb : noLock b) :
    noLock (a ++ b) := by
  intro p hp
  rcases List.mem_append.mp hp with h | h
  · exact ha p h
  · exact hb p h

theorem noLock_resolveTraceEvents (w : GoWorld) (id : String) :
    noLock (resolveTraceEvents w id) := by
  intro p hp
  unfold resolveTraceEvents at hp
  split at hp <;> simp at hp

theorem noLock_listTrace (w : GoWorld) : noLock (listTrace w) := by
  intro p hp
  simp [listTrace] at hp

theorem noLock_runTrace (w : GoWorld) (id : String) (argv : List String) :
    noLock (runTrace w id argv) := by
  unfold runTrace
  split
  · exact noLock_nil
  · refine noLock_append (noLock_resolveTraceEvents w id) ?_
    intro p hp
    split at hp <;> simp at hp

theorem noLock_editorTail (w : GoWorld) (t : Target) (override : String) :
    noLock (editorTail w t override) := by
  unfold editorTail
  split
  · intro p hp; simp at hp
  · split
    · intro p hp; simp at hp
    · exact noLock_nil

theorem noLock_editorTrace (w : GoWorld) (id override : String) :
    noLock (editorTrace w id override) := by
  unfold editorTrace
  refine noLock_append (noLock_resolveTraceEvents w id) ?_
  split
  · exact noLock_nil
  · exact noLock_editorTail w _ override

theorem noLock_aiTail (w : GoWorld) (override : String) (args : List String) :
    noLock (aiTail w override args) := by
  unfold aiTail
  split
  · exact noLock_nil
  · split
    · intro p hp; simp at hp
    · exact noLock_nil

theorem noLock_aiTrace (w : GoWorld) (id override : String) (args : List String) :
    noLock (aiTrace w id override args) := by
  unfold aiTrace
  refine noLock_append (noLock_resolveTraceEvents w id) ?_
  split
  · exact noLock_nil
  · exact noLock_aiTail w override args

theorem noLock_copyLoopEvents (w : GoWorld) (srcPath : String) (ds : List Target) :
    noLock (copyLoopEvents w srcPath ds) := by
  induction ds with
  | nil => exact noLock_nil
  | cons d ds ih =>
      intro p hp
      unfold copyLoopEvents at hp
      rcases List.mem_cons.mp hp with h | h
      · cases h
      · split at h
        · exact ih p h
        · cases h

theorem noLock_resolveTargetsEvents (w : GoWorld) (ids : List String) :
    noLock (resolveTargetsEvents w ids).1 := by
  induction ids with
  | nil => exact noLock_nil
  | cons id rest ih =>
      unfold resolveTargetsEvents
      split
      · exact noLock_resolveTraceEvents w id
      · exact noLock_append (noLock_resolveTraceEvents w id) ih

theorem noLock_copyDispatch (w : GoWorld) (src : Target) (targets : List String)
    (opts : MCopyOpts) : noLock (copyDispatch w src targets opts) := by
  unfold copyDispatch
  split
  · exact noLock_nil
  · split
    · exact noLock_append (noLock_listTrace w) (noLock_copyLoopEvents w _ _)
    · split
      · exact noLock_nil
      · refine noLock_append (noLock_resolveTargetsEvents w targets) ?_
        split
        · exact noLock_nil
        · exact noLock_copyLoopEvents w _ _

theorem noLock_copyTrace (w : GoWorld) (targets : List String) (opts : MCopyOpts) :
    noLock (copyTrace w targets opts) := by
  unfold copyTrace
  refine noLock_append (noLock_resolveTraceEvents w _) ?_
  split
  · exact noLock_nil
  · exact noLock_copyDispatch w _ targets opts

/-- C3 (amended): the mutating operations Remove and Clean acquire the
repository advisory lock as their first action (Remove at common_dir/gtr.lock,
Clean at common_dir/wr.lock); CreateWorktree stats the destination and creates
the worktrees base directory and only then acquires the lock at
common_dir/wr.lock; Copy — single- or multi-target — and the read-only
operations (list, resolve and thus go, run, editor, ai) never acquire it. -/
theorem lock_discipline (w : GoWorld) (ids : List String) (ropts : RemoveOpts)
    (branch : String) (copts : CreateOpts) (targets : List String)
    (mopts : MCopyOpts) (id override : String) (argv args : List String) :
    (ids ≠ [] → removeTrace w ids ropts =
        .lockAcquire (joinPath w.st.commonDir "gtr.lock") ::
          removePostLock w ids ropts) ∧
    (cleanTrace w =
        .lockAcquire (joinPath w.st.commonDir "wr.lock") :: cleanPostLock w) ∧
    (branch ≠ "" → ¬(copts.force ∧ copts.nameSuffix = "") →
      trackOk copts.trackMode = true →
      w.st.statOk (createWorktreePath w branch copts) = false →
      createTrace w branch copts =
        .statCall (createWorktreePath w branch copts) ::
          .mkdirAll w.st.baseDir ::
            .lockAcquire (joinPath w.st.commonDir "wr.lock") ::
              createPostLock w branch copts) ∧
    noLock (copyTrace w targets mopts) ∧
    noLock (listTrace w) ∧
    noLock (resolveTraceEvents w id) ∧
    noLock (runTrace w id argv) ∧
    noLock (editorTrace w id override) ∧
    noLock (aiTrace w id override args) := by
  refine ⟨?_, rfl, ?_, noLock_copyTrace w targets mopts, noLock_listTrace w,
    noLock_resolveTraceEvents w id, noLock_runTrace w id argv,
    noLock_editorTrace w id override, noLock_aiTrace w id override args⟩
  · intro h
    have hne : ids.isEmpty = false := by
      cases ids
      · exact absurd rfl h
      · rfl
    unfold removeTrace
    rw [hne]
    rfl
  · intro h1 h2 h3 h4
    unfold createTrace
    rw [if_neg h1, if_neg h2]
    simp only [h3, Bool.not_true, Bool.false_eq_true, if_false, h4]

/-- Concrete Manager state with two registered linked worktrees besides the
main repository. -/
def lockStateE : ManagerState :=
  { mainRoot := "/repo"
    commonDir := "/repo/.git"
    porcelain := [⟨"/repo", "main", false, false, false⟩,
                  ⟨"/b/wt1", "feat", false, false, false⟩,
                  ⟨"/b/wt2", "feat2", false, false, false⟩]
    baseDir := "/b"
    pfx := ""
    baseChildren := some [⟨"wt1", true⟩, ⟨"wt2", true⟩]
    statOk := fun p => p == "/repo" || p == "/b" || p == "/b/wt1" || p == "/b/wt2"
    branchOf := fun _ => none }

/-- Concrete oracle world over lockStateE in which every external call
succeeds. -/
def lockWorld : GoWorld :=
  { st := lockStateE
    gitOk := fun _ => true
    refHas := fun _ => false
    cfgAll := fun _ => []
    cfgDefault := fun _ => "none"
    worktreeInclude := []
    readDirAt := fun _ => some []
    lockOk := true
    confirmOk := true
    copyOkAt := fun _ => true
    adapterOk := true
    defaultFromRef := "main" }

/-- C3 counterexample: a multi-target copy (two explicit destinations, both
resolved and both written) performs no lock acquisition at all, refuting the
claim that the multi-target copy acquires the repository advisory lock before
mutating state. -/
theorem copy_multi_target_no_lock_counterexample :
    copyTrace lockWorld ["wt1", "wt2"] ⟨"", false, false, ["*.env"], true⟩ =
      [.copyFilesInto "/repo" "/b/wt1", .copyFilesInto "/repo" "/b/wt2"] ∧
    ¬ ∃ p, Event.lockAcquire p ∈
        copyTrace lockWorld ["wt1", "wt2"] ⟨"", false, false, ["*.env"], true⟩ := by
  have heq : copyTrace lockWorld ["wt1", "wt2"] ⟨"", false, false, ["*.env"], true⟩ =
      [.copyFilesInto "/repo" "/b/wt1", .copyFilesInto "/repo" "/b/wt2"] := by rfl
  refine ⟨heq, ?_⟩
  rintro ⟨p, hp⟩
  rw [heq] at hp
  simp at hp

theorem lock_discipline_witness :
    removeTrace lockWorld ["wt1"] ⟨false, false, true, false⟩ =
      .lockAcquire (joinPath lockWorld.st.commonDir "gtr.lock") ::
        removePostLock lockWorld ["wt1"] ⟨false, false, true, false⟩ ∧
    createTrace lockWorld "feat3" ⟨"", false, "", false, true, false, ""⟩ =
      .statCall (createWorktreePath lockWorld "feat3" ⟨"", false, "", false, true, false, ""⟩) ::
        .mkdirAll lockWorld.st.baseDir ::
          .lockAcquire (joinPath lockWorld.st.commonDir "wr.lock") ::
            createPostLock lockWorld "feat3" ⟨"", false, "", false, true, false, ""⟩ := by
  have h := lock_discipline lockWorld ["wt1"] ⟨false, false, true, false⟩ "feat3"
    ⟨"", false, "", false, true, false, ""⟩ [] ⟨"", false, false, [], true⟩ "1" "" [] []
  exact ⟨h.1 (by simp), h.2.2.1 (by simp) (by simp) (by decide) (by decide)⟩
